import Mathlib

/-!
Verification of the Fractal-Harmonic Transform validation suite.

The development shallowly embeds the numeric core of the repository:
the `FractalHarmonicTransform` class of `fht_validation_suite.py`
(constructor, `transform`, `calculate_consciousness_score`), the
`ValidationSuite` class (`validate_transformation`,
`run_comprehensive_validation`), and the simplified
`FractalHarmonicTransform` class of `mathematical_derivations.py`.

Machine floats are modelled as real numbers extended with the IEEE
special values NaN, +Inf and -Inf (type `FV` below); the numpy
element-wise operations used by the code (`np.maximum`, `np.log`,
`np.abs`, `**`, `np.sign`, `*`, `+`, `np.isnan`/`np.isinf`) are given
their IEEE semantics on those special values and exact real semantics
on finite values (overflow and rounding are not modelled).
-/

noncomputable section

namespace FHT

/-- Golden ratio `(1 + sqrt 5) / 2`, the value `self.phi` computed in both
`__init__` methods. -/
def phi : ℝ := (1 + Real.sqrt 5) / 2

/-- A machine float: NaN, +infinity, -infinity, or a finite real. -/
inductive FV where
  | nan : FV
  | inf : FV
  | ninf : FV
  | fin : ℝ → FV

/-- `np.isnan(x) | np.isinf(x)`: true on the three special values. -/
def FV.isNanOrInf : FV → Bool
  | .nan => true
  | .inf => true
  | .ninf => true
  | .fin _ => false

/-- `np.maximum(x, e)` for a scalar float `x` and a finite real `e`
(NaN propagates, as numpy's `maximum` does). -/
def FV.maxReal : FV → ℝ → FV
  | .nan, _ => .nan
  | .inf, _ => .inf
  | .ninf, e => .fin e
  | .fin x, e => .fin (max x e)

/-- `x + e` for a scalar float `x` and a finite real `e`. -/
def FV.addReal : FV → ℝ → FV
  | .nan, _ => .nan
  | .inf, _ => .inf
  | .ninf, _ => .ninf
  | .fin x, e => .fin (x + e)

/-- `np.log`: NaN on NaN and on negative arguments, -Inf at 0,
+Inf at +Inf, the real logarithm on positive reals. -/
def FV.log : FV → FV
  | .nan => .nan
  | .inf => .inf
  | .ninf => .nan
  | .fin x => if x < 0 then .nan else if x = 0 then .ninf else .fin (Real.log x)

/-- `np.abs`. -/
def FV.abs : FV → FV
  | .nan => .nan
  | .inf => .inf
  | .ninf => .inf
  | .fin x => .fin |x|

/-- `b ** p` for a float base `b` and a fixed positive non-integer real
exponent `p` (the code only uses the exponent `self.phi`): NaN propagates,
infinite bases give +Inf, a negative finite base gives NaN (IEEE pow of a
negative base with non-integer exponent), and a nonnegative finite base
gives the real power. -/
def FV.rpow (b : FV) (p : ℝ) : FV :=
  match b with
  | .nan => .nan
  | .inf => .inf
  | .ninf => .inf
  | .fin x => if x < 0 then .nan else .fin (x ^ p)

/-- `np.sign`: NaN propagates, infinities map to ±1, finite reals to
-1, 0 or 1. -/
def FV.sign : FV → FV
  | .nan => .nan
  | .inf => .fin 1
  | .ninf => .fin (-1)
  | .fin x => .fin (if x < 0 then -1 else if x = 0 then 0 else 1)

/-- IEEE float multiplication on extended values. -/
def FV.mul : FV → FV → FV
  | .nan, _ => .nan
  | _, .nan => .nan
  | .inf, .inf => .inf
  | .inf, .ninf => .ninf
  | .ninf, .inf => .ninf
  | .ninf, .ninf => .inf
  | .inf, .fin y => if y < 0 then .ninf else if y = 0 then .nan else .inf
  | .fin x, .inf => if x < 0 then .ninf else if x = 0 then .nan else .inf
  | .ninf, .fin y => if y < 0 then .inf else if y = 0 then .nan else .ninf
  | .fin x, .ninf => if x < 0 then .inf else if x = 0 then .nan else .ninf
  | .fin x, .fin y => .fin (x * y)

/-- IEEE float addition on extended values. -/
def FV.add : FV → FV → FV
  | .nan, _ => .nan
  | _, .nan => .nan
  | .inf, .ninf => .nan
  | .ninf, .inf => .nan
  | .inf, _ => .inf
  | .ninf, _ => .ninf
  | .fin _, .inf => .inf
  | .fin _, .ninf => .ninf
  | .fin x, .fin y => .fin (x + y)

/-- Projection of a float to its real value (0 on the special values);
used to feed a transform output, which is always finite, to the
real-valued score computations. -/
def FV.toReal : FV → ℝ
  | .nan => 0
  | .inf => 0
  | .ninf => 0
  | .fin x => x

/-- The attribute set assigned by `FractalHarmonicTransform.__init__`
(both files): `self.phi`, `self.alpha`, `self.beta`, `self.epsilon`,
`self.stability_weight`, `self.breakthrough_weight`. -/
structure Params where
  phi : ℝ
  alpha : ℝ
  beta : ℝ
  epsilon : ℝ
  stability_weight : ℝ
  breakthrough_weight : ℝ

/-- `FractalHarmonicTransform.__init__(alpha=None, beta=1.0, epsilon=1e-12)`
from `fht_validation_suite.py`: stores the golden ratio in `self.phi`, the
given `alpha` (defaulting to `self.phi` when `None`), `beta` and `epsilon`
unchanged, and the fixed weights 0.79 and 0.21.  It performs no validation
of any argument. -/
def init (alpha : Option ℝ) (beta : ℝ) (epsilon : ℝ) : Params :=
  { phi := FHT.phi
    alpha := alpha.getD FHT.phi
    beta := beta
    epsilon := epsilon
    stability_weight := 0.79
    breakthrough_weight := 0.21 }

/-- The constructor viewed as a fallible operation (a Python `__init__`
may raise).  The source body contains no `raise` and no check, so the
embedding always returns `Except.ok`. -/
def initE (alpha : Option ℝ) (beta : ℝ) (epsilon : ℝ) : Except String Params :=
  Except.ok (init alpha beta epsilon)

/-- `FractalHarmonicTransform()` with all defaults, as constructed by
`ValidationSuite.__init__`. -/
def defaultParams : Params := init none 1.0 1e-12

/-- `log_term = np.log(data + self.epsilon)` applied to one element, after
the clamp `data = np.maximum(data, self.epsilon)`
(`fht_validation_suite.py`, lines 77-80). -/
def log_term (p : Params) (x : FV) : FV :=
  ((x.maxReal p.epsilon).addReal p.epsilon).log

/-- `phi_power = np.abs(log_term) ** self.phi` applied to one element
(`fht_validation_suite.py`, line 81).  The exponent read by the code is
the attribute `self.phi`, not `self.alpha`. -/
def phi_power (p : Params) (x : FV) : FV :=
  ((log_term p x).abs).rpow p.phi

/-- `sign_term = np.sign(log_term)` applied to one element
(`fht_validation_suite.py`, line 82). -/
def sign_term (p : Params) (x : FV) : FV :=
  (log_term p x).sign

/-- `result = self.alpha * phi_power * sign_term * amplification + self.beta`
applied to one element (`fht_validation_suite.py`, line 84), before the
NaN/Inf remediation. -/
def rawElem (p : Params) (amplification : ℝ) (x : FV) : FV :=
  ((((FV.fin p.alpha).mul (phi_power p x)).mul (sign_term p x)).mul
    (FV.fin amplification)).add (FV.fin p.beta)

/-- One element of `FractalHarmonicTransform.transform`
(`fht_validation_suite.py`, lines 77-89): the raw value, with NaN and
infinite results replaced by `self.beta`
(`np.where(np.isnan(result) | np.isinf(result), self.beta, result)`). -/
def transformElem (p : Params) (amplification : ℝ) (x : FV) : FV :=
  let result := rawElem p amplification x
  if result.isNanOrInf then FV.fin p.beta else result

/-- `FractalHarmonicTransform.transform(data, amplification=1.0)` from
`fht_validation_suite.py`, element-wise over the input array. -/
def transform (p : Params) (amplification : ℝ) (data : List FV) : List FV :=
  data.map (transformElem p amplification)

/-- `np.mean` of a 1-d array (sum divided by length; the division by
zero on an empty array is Lean's `x / 0 = 0`). -/
def npMean (l : List ℝ) : ℝ := l.sum / l.length

/-- `np.std` of a 1-d array: population standard deviation,
`sqrt(mean((x - mean x)^2))`. -/
def npStd (l : List ℝ) : ℝ :=
  Real.sqrt ((l.map (fun x => (x - npMean l) ^ 2)).sum / l.length)

/-- `np.min` of a 1-d array (the value on an empty array is irrelevant
to the claims; numpy raises there). -/
def npMin : List ℝ → ℝ
  | [] => 0
  | h :: t => t.foldl min h

/-- `np.max` of a 1-d array. -/
def npMax : List ℝ → ℝ
  | [] => 0
  | h :: t => t.foldl max h

/-- `np.corrcoef(x, y)[0, 1]`: the Pearson correlation coefficient
`sum((x-mean x)(y-mean y)) / (sqrt(sum (x-mean x)^2) * sqrt(sum (y-mean y)^2))`.
When a sequence is constant the denominator is zero and numpy's `0/0`
yields NaN, modelled here explicitly. -/
def corrcoef (x y : List ℝ) : FV :=
  let mx := npMean x
  let my := npMean y
  let num := ((x.zip y).map (fun p => (p.1 - mx) * (p.2 - my))).sum
  let den := Real.sqrt ((x.map (fun a => (a - mx) ^ 2)).sum) *
    Real.sqrt ((y.map (fun b => (b - my) ^ 2)).sum)
  if den = 0 then FV.nan else FV.fin (num / den)

/-- The dictionary returned by `calculate_consciousness_score`. -/
structure ScoreSet where
  consciousness_score : ℝ
  stability_score : ℝ
  breakthrough_score : ℝ
  correlation : FV

/-- `FractalHarmonicTransform.calculate_consciousness_score(original,
transformed)` (`fht_validation_suite.py`, lines 99-117):
`stability_score = np.sum(np.abs(transformed)) / (len(original) * 4)`;
`breakthrough_score = np.std(transformed) / np.mean(np.abs(transformed))`
when that mean is positive, else 0;
`consciousness_score = min(0.79 * stability + 0.21 * breakthrough, 1.0)`;
`correlation = np.corrcoef(original, transformed)[0, 1]` when
`len(original) > 1`, else 0. -/
def calculate_consciousness_score (p : Params) (original transformed : List ℝ) :
    ScoreSet :=
  let stability_score :=
    (transformed.map (fun t => |t|)).sum / ((original.length : ℝ) * 4)
  let breakthrough_score :=
    if npMean (transformed.map (fun t => |t|)) > 0 then
      npStd transformed / npMean (transformed.map (fun t => |t|))
    else 0
  let consciousness_score :=
    p.stability_weight * stability_score + p.breakthrough_weight * breakthrough_score
  { consciousness_score := min consciousness_score 1
    stability_score := stability_score
    breakthrough_score := breakthrough_score
    correlation :=
      if 1 < original.length then corrcoef original transformed else FV.fin 0 }

/-- The `scipy.stats` collaborators called by `validate_transformation`:
`pearsonr`, `spearmanr` and `ks_2samp`, each returning a
(statistic, p-value) pair of floats.  They are external library code,
so the validator is parametrized over them. -/
structure StatsLib where
  pearsonr : List ℝ → List ℝ → FV × FV
  spearmanr : List ℝ → List ℝ → FV × FV
  ks_2samp : List ℝ → List ℝ → FV × FV

/-- The `statistical_tests` sub-dictionary of a validation record. -/
structure StatTests where
  pearson_correlation : FV
  pearson_p_value : FV
  spearman_correlation : FV
  spearman_p_value : FV
  ks_statistic : FV
  ks_p_value : FV

/-- The `data_characteristics` sub-dictionary of a validation record. -/
structure DataChars where
  mean : ℝ
  std : ℝ
  min : ℝ
  max : ℝ
  range : ℝ

/-- The dictionary built by `ValidationSuite.validate_transformation`
(`fht_validation_suite.py`, lines 220-239). -/
structure ValidationRecord where
  dataset_size : ℕ
  processing_time : ℝ
  metrics : ScoreSet
  statistical_tests : StatTests
  data_characteristics : DataChars

/-- The mutable state of a `ValidationSuite` object: the transform
instance `self.fht` and the accumulating list `self.results`. -/
structure SuiteState where
  fht : Params
  results : List ValidationRecord

/-- `ValidationSuite.__init__`: a default-parameter transform and an
empty result list. -/
def initSuiteState : SuiteState :=
  { fht := defaultParams, results := [] }

/-- `ValidationSuite.validate_transformation(data)`
(`fht_validation_suite.py`, lines 190-242), with the wall-clock reading
`time.time() - start_time` passed in as `elapsed` and the `scipy.stats`
library passed in as `stats`.  The transform output, guaranteed finite,
is read back to reals for the score and statistics steps.  The record is
appended to `self.results` and also returned. -/
def validate_transformation (stats : StatsLib) (S : SuiteState)
    (data : List ℝ) (elapsed : ℝ) : SuiteState × ValidationRecord :=
  let transformed := (transform S.fht 1 (data.map FV.fin)).map FV.toReal
  let metrics := calculate_consciousness_score S.fht data transformed
  let pear := stats.pearsonr data transformed
  let spear := stats.spearmanr data transformed
  let ks := stats.ks_2samp data transformed
  let record : ValidationRecord :=
    { dataset_size := data.length
      processing_time := elapsed
      metrics := metrics
      statistical_tests :=
        { pearson_correlation := pear.1
          pearson_p_value := pear.2
          spearman_correlation := spear.1
          spearman_p_value := spear.2
          ks_statistic := ks.1
          ks_p_value := ks.2 }
      data_characteristics :=
        { mean := npMean data
          std := npStd data
          min := npMin data
          max := npMax data
          range := npMax data - npMin data } }
  ({ S with results := S.results ++ [record] }, record)

/-- The fixed pattern list of `run_comprehensive_validation`
(`fht_validation_suite.py`, line 260). -/
def patternsList : List String :=
  ["fibonacci", "golden_ratio", "prime_modulo", "random"]

/-- The default sizes of `run_comprehensive_validation`
(`fht_validation_suite.py`, line 258). -/
def defaultSizes : List ℕ := [1000, 10000, 100000]

/-- The inner size loop of `run_comprehensive_validation`
(`fht_validation_suite.py`, lines 267-278) for one pattern: generate
data, validate it, tag the record with its pattern and size, and append
it to the pattern's list.  The collaborators `gen` (the dataset
generator) and `validate` (the statistical validator) are Python methods
that may raise, so they return `Except`; the loop body contains no
handler, hence a failure propagates. -/
def runPattern {E R : Type} (gen : String → ℕ → Except E (List ℝ))
    (validate : List ℝ → Except E R) (pattern : String) :
    List ℕ → Except E (List (R × String × ℕ))
  | [] => Except.ok []
  | s :: rest =>
    Except.bind (gen pattern s) (fun data =>
      Except.bind (validate data) (fun r =>
        Except.bind (runPattern gen validate pattern rest) (fun tail =>
          Except.ok ((r, pattern, s) :: tail))))

/-- The outer pattern loop of `run_comprehensive_validation`:
each pattern's tagged record list is stored under the pattern name. -/
def runPatterns {E R : Type} (gen : String → ℕ → Except E (List ℝ))
    (validate : List ℝ → Except E R) (sizes : List ℕ) :
    List String → Except E (List (String × List (R × String × ℕ)))
  | [] => Except.ok []
  | p :: ps =>
    Except.bind (runPattern gen validate p sizes) (fun pr =>
      Except.bind (runPatterns gen validate sizes ps) (fun tail =>
        Except.ok ((p, pr) :: tail)))

/-- `ValidationSuite.run_comprehensive_validation(sizes=None)`
(`fht_validation_suite.py`, lines 244-282): iterates the fixed patterns
over the given sizes (defaulting to `[1000, 10000, 100000]`). -/
def runComprehensive {E R : Type} (gen : String → ℕ → Except E (List ℝ))
    (validate : List ℝ → Except E R) (sizes : Option (List ℕ)) :
    Except E (List (String × List (R × String × ℕ))) :=
  runPatterns gen validate (sizes.getD defaultSizes) patternsList

/-- The constant value produced by the default-parameter transform on
any input below epsilon: phi * |log(1e-12 + 1e-12)|^phi * (-1) * 1 + 1. -/
def subEpsVal : ℝ :=
  FHT.phi * |Real.log (1e-12 + 1e-12)| ^ FHT.phi * (-1) * 1 + 1

end FHT

namespace MathDeriv

/-- `FractalHarmonicTransform.__init__` from `mathematical_derivations.py`
(lines 348-354): no arguments; `alpha` is always the golden ratio,
`beta = 1.0`, `epsilon = 1e-12`, weights 0.79 and 0.21. -/
def initParams : FHT.Params :=
  { phi := FHT.phi
    alpha := FHT.phi
    beta := 1.0
    epsilon := 1e-12
    stability_weight := 0.79
    breakthrough_weight := 0.21 }

/-- One element of `FractalHarmonicTransform.transform` from
`mathematical_derivations.py` (lines 356-368): identical to the
validation-suite transform except that there is no `amplification`
factor: `result = self.alpha * phi_power * sign_term + self.beta`. -/
def transformElem (p : FHT.Params) (x : FHT.FV) : FHT.FV :=
  let data := x.maxReal p.epsilon
  let log_term := (data.addReal p.epsilon).log
  let phi_power := (log_term.abs).rpow p.phi
  let sign_term := log_term.sign
  let result :=
    (((FHT.FV.fin p.alpha).mul phi_power).mul sign_term).add (FHT.FV.fin p.beta)
  if result.isNanOrInf then FHT.FV.fin p.beta else result

/-- `FractalHarmonicTransform.transform(data)` from
`mathematical_derivations.py`, element-wise over the input array. -/
def transform (p : FHT.Params) (data : List FHT.FV) : List FHT.FV :=
  data.map (transformElem p)

end MathDeriv

namespace FHT

lemma phi_pos : 0 < phi := by
  unfold phi
  have h5 : 0 ≤ Real.sqrt 5 := Real.sqrt_nonneg 5
  linarith

lemma phi_lt_two : phi < 2 := by
  unfold phi
  have h5 : Real.sqrt 5 < 3 :=
    (Real.sqrt_lt' (by norm_num : (0:ℝ) < 3)).mpr (by norm_num)
  linarith

lemma FV.mul_fin_one (x : FV) : FV.mul x (FV.fin 1) = x := by
  cases x with
  | nan => rfl
  | inf => norm_num [FV.mul]
  | ninf => norm_num [FV.mul]
  | fin r => simp [FV.mul]

end FHT

namespace FHT

/-- C7: the claim states that constructing a transform with a
non-positive epsilon fails immediately with an error.  The constructor
performs no validation, so construction with `epsilon = -1` succeeds
(returns `Except.ok`), refuting the claim. -/
theorem c7_counterexample : initE none 1 (-1) = Except.ok (init none 1 (-1)) := rfl

/-- C7 (amended): constructing a Transform Engine never fails: even a
non-positive epsilon is accepted silently and stored unchanged, together
with the other parameters; no error is raised at construction time. -/
theorem c7_no_validation (a : Option ℝ) (b e : ℝ) (he : e ≤ 0) :
    initE a b e = Except.ok (init a b e) ∧ (init a b e).epsilon = e ∧
    (init a b e).beta = b ∧ (init a b e).alpha = a.getD phi :=
  ⟨rfl, rfl, rfl, rfl⟩

/-- C7 witness: the amended statement at the concrete malformed
configuration `epsilon = -1`. -/
theorem c7_witness :
    initE none 1 (-1) = Except.ok (init none 1 (-1)) ∧
    (init none 1 (-1)).epsilon = -1 ∧ (init none 1 (-1)).beta = 1 ∧
    (init none 1 (-1)).alpha = Option.getD none phi :=
  c7_no_validation none 1 (-1) (by norm_num)

/-- C8: every call to `validate_transformation` appends exactly one
record to the end of the accumulating result list, leaving all
previously stored records unchanged and in order, and leaves the rest of
the validator's state (the transform instance `self.fht`) unchanged. -/
theorem c8_append_only (stats : StatsLib) (S : SuiteState) (data : List ℝ) (t : ℝ) :
    (validate_transformation stats S data t).1.results
        = S.results ++ [(validate_transformation stats S data t).2] ∧
    (validate_transformation stats S data t).1.fht = S.fht :=
  ⟨rfl, rfl⟩

/-- C9: on every input sequence, the validation-suite transform with
amplification 1.0 and default parameters produces exactly the same
output as the transform of `mathematical_derivations.py`. -/
theorem c9_transforms_agree (data : List FV) :
    transform defaultParams 1 data = MathDeriv.transform MathDeriv.initParams data := by
  unfold transform MathDeriv.transform
  apply List.map_congr_left
  intro x _
  have hp : defaultParams = MathDeriv.initParams := rfl
  show transformElem defaultParams 1 x = MathDeriv.transformElem MathDeriv.initParams x
  rw [hp]
  unfold transformElem MathDeriv.transformElem rawElem phi_power sign_term log_term
  rw [FV.mul_fin_one]

/-- C3: every element of `transform(data, amplification)` is finite: the
`np.where` remediation replaces NaN and infinite raw values by `beta`,
so the returned sequence contains only finite values, for every input
(including NaN or infinite inputs) and every amplification. -/
theorem c3_output_finite (p : Params) (amp : ℝ) (data : List FV) :
    ∀ y ∈ transform p amp data, ∃ r : ℝ, y = FV.fin r := by
  intro y hy
  unfold transform at hy
  rw [List.mem_map] at hy
  obtain ⟨x, _, rfl⟩ := hy
  unfold transformElem
  cases hres : rawElem p amp x with
  | nan => exact ⟨p.beta, rfl⟩
  | inf => exact ⟨p.beta, rfl⟩
  | ninf => exact ⟨p.beta, rfl⟩
  | fin r => exact ⟨r, rfl⟩

/-- C3 witness: the theorem applied to the singleton dataset `[NaN]`
with default parameters, whose transform is `[beta]`. -/
theorem c3_witness : ∃ r : ℝ, FV.fin defaultParams.beta = FV.fin r :=
  c3_output_finite defaultParams 1 [FV.nan] (FV.fin defaultParams.beta)
    (List.mem_singleton.mpr rfl)

lemma log_term_exp2 :
    log_term (init (some 2) 1 1) (FV.fin (Real.exp 2 - 1)) = FV.fin 2 := by
  have h2 : (2:ℝ) ≤ Real.exp 2 := by
    have h1 := Real.add_one_le_exp (1:ℝ)
    have h12 : Real.exp 1 ≤ Real.exp 2 := Real.exp_le_exp.mpr one_le_two
    linarith
  unfold log_term init
  simp only [FV.maxReal, FV.addReal, FV.log]
  rw [max_eq_left (by linarith : (1:ℝ) ≤ Real.exp 2 - 1)]
  rw [show Real.exp 2 - 1 + 1 = Real.exp 2 by ring]
  rw [if_neg (not_lt.mpr (Real.exp_pos 2).le), if_neg (Real.exp_ne_zero 2)]
  rw [Real.log_exp]

/-- C1: the claim states the power term is `|log_term| ** alpha` for
every configured alpha.  Counterexample: an instance configured with
`alpha = 2`, `beta = 1`, `epsilon = 1`, on the input `exp(2) - 1`, has
`log_term = 2` and computes the power term `2 ** phi`, which differs
from the claimed `|log_term| ** alpha = 2 ** 2`: the exponent read by
the code is the fixed attribute `self.phi`, not `self.alpha`. -/
theorem c1_counterexample :
    log_term (init (some 2) 1 1) (FV.fin (Real.exp 2 - 1)) = FV.fin 2 ∧
    (init (some 2) 1 1).alpha = 2 ∧
    phi_power (init (some 2) 1 1) (FV.fin (Real.exp 2 - 1)) ≠
      FV.fin ((2:ℝ) ^ (init (some 2) 1 1).alpha) := by
  refine ⟨log_term_exp2, rfl, ?_⟩
  unfold phi_power
  rw [log_term_exp2]
  simp only [FV.abs, FV.rpow]
  rw [if_neg (by norm_num : ¬ |(2:ℝ)| < 0)]
  have habs : |(2:ℝ)| = 2 := by norm_num
  rw [habs]
  have hlt : (2:ℝ) ^ (init (some 2) 1 1).phi < (2:ℝ) ^ (init (some 2) 1 1).alpha := by
    have hphi : (init (some 2) 1 1).phi = phi := rfl
    have halpha : (init (some 2) 1 1).alpha = 2 := rfl
    rw [hphi, halpha]
    exact (Real.rpow_lt_rpow_left_iff one_lt_two).mpr phi_lt_two
  simp only [ne_eq, FV.fin.injEq]
  exact ne_of_lt hlt

/-- C1 (amended): whenever the log term of an element is a finite value
l, the power term computed by the transform is `|l| ** phi`, with the
fixed golden-ratio attribute as exponent, for every configured alpha:
exponent and configured alpha coincide only at the default
`alpha = phi`. -/
theorem c1_exponent_is_phi (a : Option ℝ) (b e : ℝ) (x : FV) (l : ℝ)
    (h : log_term (init a b e) x = FV.fin l) :
    phi_power (init a b e) x = FV.fin (|l| ^ phi) := by
  unfold phi_power
  rw [h]
  simp only [FV.abs, FV.rpow]
  rw [if_neg (not_lt.mpr (abs_nonneg l))]
  rfl

/-- C1 witness: the amended statement at the instance with alpha 2 and
input `exp(2) - 1`, whose log term is the finite value 2. -/
theorem c1_witness :
    phi_power (init (some 2) 1 1) (FV.fin (Real.exp 2 - 1)) = FV.fin (|(2:ℝ)| ^ phi) :=
  c1_exponent_is_phi (some 2) 1 1 (FV.fin (Real.exp 2 - 1)) 2 log_term_exp2

lemma log_sub_eps_neg : Real.log (1e-12 + 1e-12) < 0 :=
  Real.log_neg (by norm_num) (by norm_num)

lemma log_term_small (x : ℝ) (hx : x < 1e-12) :
    log_term defaultParams (FV.fin x) = FV.fin (Real.log (1e-12 + 1e-12)) := by
  unfold log_term defaultParams init
  simp only [FV.maxReal, FV.addReal, FV.log]
  rw [max_eq_right hx.le]
  rw [if_neg (by norm_num : ¬ (1e-12 + 1e-12 : ℝ) < 0),
    if_neg (by norm_num : ¬ (1e-12 + 1e-12 : ℝ) = 0)]

lemma transformElem_small (x : ℝ) (hx : x < 1e-12) :
    transformElem defaultParams 1 (FV.fin x) = FV.fin subEpsVal := by
  have hl := log_term_small x hx
  unfold transformElem rawElem phi_power sign_term
  rw [hl]
  simp only [FV.abs, FV.rpow, FV.sign]
  rw [if_neg (not_lt.mpr (abs_nonneg _)), if_pos log_sub_eps_neg]
  simp only [FV.mul, FV.add, FV.isNanOrInf]
  unfold subEpsVal
  norm_num [defaultParams, init]

lemma subEpsVal_lt_one : subEpsVal < 1 := by
  unfold subEpsVal
  have habs : 0 < |Real.log (1e-12 + 1e-12)| := abs_pos.mpr (ne_of_lt log_sub_eps_neg)
  have hp : 0 < |Real.log (1e-12 + 1e-12)| ^ phi := Real.rpow_pos_of_pos habs phi
  nlinarith [phi_pos]

/-- C2: the claim states that on a dataset of values below epsilon the
transform output is constant equal to beta.  Counterexample: with
default parameters the input 0 is clamped to epsilon, the log term is
`log(2e-12)`, which is finite and nonzero, so the output element is
`phi * |log(2e-12)|^phi * (-1) + 1`, strictly below `beta = 1` and in
particular not equal to it. -/
theorem c2_counterexample :
    transformElem defaultParams 1 (FV.fin 0) ≠ FV.fin defaultParams.beta := by
  rw [transformElem_small 0 (by norm_num)]
  have hb : defaultParams.beta = 1 := by norm_num [defaultParams, init]
  rw [hb]
  simp only [ne_eq, FV.fin.injEq]
  exact ne_of_lt subEpsVal_lt_one

/-- C2 (amended): for every non-empty dataset whose values all lie
strictly below epsilon, the transform output (default parameters,
amplification 1.0) is constant — every element equals the same value —
but that constant is strictly less than beta, not equal to beta. -/
theorem c2_subeps_constant (data : List ℝ) (hne : data ≠ [])
    (hall : ∀ x ∈ data, x < 1e-12) :
    ∃ c, c < defaultParams.beta ∧
      transform defaultParams 1 (data.map FV.fin) = data.map (fun _ => FV.fin c) := by
  refine ⟨subEpsVal, ?_, ?_⟩
  · have hb : defaultParams.beta = 1 := by norm_num [defaultParams, init]
    rw [hb]
    exact subEpsVal_lt_one
  · unfold transform
    rw [List.map_map]
    apply List.map_congr_left
    intro x hx
    exact transformElem_small x (hall x hx)

/-- C2 witness: the amended statement at the concrete dataset `[0]`. -/
theorem c2_witness :
    ∃ c, c < defaultParams.beta ∧
      transform defaultParams 1 (([0] : List ℝ).map FV.fin)
        = ([0] : List ℝ).map (fun _ => FV.fin c) :=
  c2_subeps_constant [0] (by simp)
    (by intro x hx; rw [List.mem_singleton] at hx; rw [hx]; norm_num)

lemma FV.mul_special (x y : FV) (h : x.isNanOrInf = true ∨ y.isNanOrInf = true) :
    (FV.mul x y).isNanOrInf = true := by
  cases x <;> cases y <;> simp_all only [FV.mul, FV.isNanOrInf] <;>
    first
      | rfl
      | (split_ifs <;> rfl)
      | simp_all

lemma FV.add_fin_special (x : FV) (b : ℝ) (hx : x.isNanOrInf = true) :
    (FV.add x (FV.fin b)).isNanOrInf = true := by
  cases x <;> simp_all only [FV.add, FV.isNanOrInf]

lemma rawElem_special (p : Params) (amp : ℝ) (x : FV)
    (hp : (phi_power p x).isNanOrInf = true) :
    (rawElem p amp x).isNanOrInf = true := by
  unfold rawElem
  exact FV.add_fin_special _ _
    (FV.mul_special _ _ (Or.inl (FV.mul_special _ _ (Or.inl
      (FV.mul_special _ _ (Or.inr hp))))))

lemma logTerm_fin_of_raw (p : Params) (amp : ℝ) (x : FV)
    (h : (rawElem p amp x).isNanOrInf = false) : ∃ l, log_term p x = FV.fin l := by
  cases hl : log_term p x with
  | fin l => exact ⟨l, rfl⟩
  | nan =>
    have hp : (phi_power p x).isNanOrInf = true := by unfold phi_power; rw [hl]; rfl
    rw [rawElem_special p amp x hp] at h
    simp at h
  | inf =>
    have hp : (phi_power p x).isNanOrInf = true := by unfold phi_power; rw [hl]; rfl
    rw [rawElem_special p amp x hp] at h
    simp at h
  | ninf =>
    have hp : (phi_power p x).isNanOrInf = true := by unfold phi_power; rw [hl]; rfl
    rw [rawElem_special p amp x hp] at h
    simp at h

lemma rawElem_of_logTerm (p : Params) (amp : ℝ) (x : FV) (l : ℝ)
    (hl : log_term p x = FV.fin l) :
    rawElem p amp x = FV.fin (p.alpha * |l| ^ p.phi *
      (if l < 0 then (-1:ℝ) else if l = 0 then 0 else 1) * amp + p.beta) := by
  unfold rawElem phi_power sign_term
  rw [hl]
  simp only [FV.abs, FV.rpow, FV.sign]
  rw [if_neg (not_lt.mpr (abs_nonneg l))]
  simp only [FV.mul, FV.add]

/-- C10: amplification scales only the signed power term, never the
beta offset: when neither call triggers the NaN/Inf fallback, the
element transformed with amplification a equals
`a * (element transformed with amplification 1 - beta) + beta`. -/
theorem c10_amplification (p : Params) (a : ℝ) (x : FV)
    (h1 : (rawElem p 1 x).isNanOrInf = false)
    (ha : (rawElem p a x).isNanOrInf = false) :
    ∃ r1 : ℝ, transformElem p 1 x = FV.fin r1 ∧
      transformElem p a x = FV.fin (a * (r1 - p.beta) + p.beta) := by
  obtain ⟨l, hl⟩ := logTerm_fin_of_raw p 1 x h1
  refine ⟨p.alpha * |l| ^ p.phi *
    (if l < 0 then (-1:ℝ) else if l = 0 then 0 else 1) * 1 + p.beta, ?_, ?_⟩
  · unfold transformElem
    rw [rawElem_of_logTerm p 1 x l hl]
    rfl
  · unfold transformElem
    rw [rawElem_of_logTerm p a x l hl]
    show FV.fin _ = FV.fin _
    rw [FV.fin.injEq]
    ring

lemma stability_score_nonneg (n : ℕ) (transformed : List ℝ) :
    0 ≤ (transformed.map (fun t => |t|)).sum / ((n : ℝ) * 4) := by
  apply div_nonneg
  · apply List.sum_nonneg
    intro x hx
    rw [List.mem_map] at hx
    obtain ⟨t, _, rfl⟩ := hx
    exact abs_nonneg t
  · positivity

lemma breakthrough_score_nonneg (transformed : List ℝ) :
    0 ≤ (if npMean (transformed.map (fun t => |t|)) > 0 then
      npStd transformed / npMean (transformed.map (fun t => |t|)) else 0) := by
  split_ifs with h
  · exact div_nonneg (Real.sqrt_nonneg _) h.le
  · exact le_refl 0

/-- C4: for every instance and every finite, non-empty pair of equal
length, the consciousness score equals
`min(1.0, 0.79 * stability_score + 0.21 * breakthrough_score)` and lies
in the interval [0, 1]. -/
theorem c4_conscore (a : Option ℝ) (b e : ℝ) (original transformed : List ℝ)
    (h1 : original ≠ []) (h2 : original.length = transformed.length) :
    (calculate_consciousness_score (init a b e) original transformed).consciousness_score
        = min 1 (0.79 *
            (calculate_consciousness_score (init a b e) original transformed).stability_score
          + 0.21 *
            (calculate_consciousness_score (init a b e) original transformed).breakthrough_score) ∧
    0 ≤ (calculate_consciousness_score (init a b e) original transformed).consciousness_score ∧
    (calculate_consciousness_score (init a b e) original transformed).consciousness_score ≤ 1 := by
  have hs := stability_score_nonneg original.length transformed
  have hb := breakthrough_score_nonneg transformed
  simp only [calculate_consciousness_score, init]
  refine ⟨min_comm _ _, ?_, min_le_right _ _⟩
  apply le_min _ zero_le_one
  have h79 : (0:ℝ) ≤ 0.79 := by norm_num
  have h21 : (0:ℝ) ≤ 0.21 := by norm_num
  exact add_nonneg (mul_nonneg h79 hs) (mul_nonneg h21 hb)

/-- C4 witness: the theorem at the concrete pair `([1], [2])` with
default parameters. -/
theorem c4_witness :
    (calculate_consciousness_score (init none 1 1e-12) [1] [2]).consciousness_score
        = min 1 (0.79 *
            (calculate_consciousness_score (init none 1 1e-12) [1] [2]).stability_score
          + 0.21 *
            (calculate_consciousness_score (init none 1 1e-12) [1] [2]).breakthrough_score) ∧
    0 ≤ (calculate_consciousness_score (init none 1 1e-12) [1] [2]).consciousness_score ∧
    (calculate_consciousness_score (init none 1 1e-12) [1] [2]).consciousness_score ≤ 1 :=
  c4_conscore none 1 1e-12 [1] [2] (by simp) rfl

lemma sum_map_getD (f : ℝ → ℝ) :
    ∀ l : List ℝ, (l.map f).sum = ∑ i ∈ Finset.range l.length, f (l.getD i 0)
  | [] => by simp
  | a :: t => by
    rw [List.map_cons, List.sum_cons, sum_map_getD f t, List.length_cons,
      Finset.sum_range_succ']
    simp [add_comm]

lemma sum_zip_map (f : ℝ → ℝ → ℝ) :
    ∀ x y : List ℝ, ((x.zip y).map (fun p => f p.1 p.2)).sum
      = ∑ i ∈ Finset.range (min x.length y.length), f (x.getD i 0) (y.getD i 0)
  | [], _ => by simp
  | _ :: _, [] => by simp
  | a :: t, b :: u => by
    rw [List.zip_cons_cons, List.map_cons, List.sum_cons, sum_zip_map f t u,
      List.length_cons, List.length_cons, Nat.succ_min_succ, Finset.sum_range_succ']
    simp [add_comm]

lemma corr_num_sq_le (x y : List ℝ) (mx my : ℝ) :
    (((x.zip y).map (fun p => (p.1 - mx) * (p.2 - my))).sum) ^ 2
      ≤ ((x.map (fun a => (a - mx) ^ 2)).sum) * ((y.map (fun b => (b - my) ^ 2)).sum) := by
  rw [sum_zip_map (fun s t => (s - mx) * (t - my)) x y,
    sum_map_getD (fun a => (a - mx) ^ 2) x, sum_map_getD (fun b => (b - my) ^ 2) y]
  refine (Finset.sum_mul_sq_le_sq_mul_sq (Finset.range (min x.length y.length))
    (fun i => x.getD i 0 - mx) (fun i => y.getD i 0 - my)).trans
    (mul_le_mul ?_ ?_ ?_ ?_)
  · exact Finset.sum_le_sum_of_subset_of_nonneg
      (Finset.range_subset.mpr (Nat.min_le_left _ _)) (fun i _ _ => sq_nonneg _)
  · exact Finset.sum_le_sum_of_subset_of_nonneg
      (Finset.range_subset.mpr (Nat.min_le_right _ _)) (fun i _ _ => sq_nonneg _)
  · exact Finset.sum_nonneg fun i _ => sq_nonneg _
  · exact Finset.sum_nonneg fun i _ => sq_nonneg _

lemma sq_sum_list_nonneg (l : List ℝ) (m : ℝ) :
    0 ≤ (l.map (fun a => (a - m) ^ 2)).sum := by
  apply List.sum_nonneg
  intro v hv
  rw [List.mem_map] at hv
  obtain ⟨t, _, rfl⟩ := hv
  exact sq_nonneg _

lemma corrcoef_bounds (x y : List ℝ) (r : ℝ) (h : corrcoef x y = FV.fin r) :
    -1 ≤ r ∧ r ≤ 1 := by
  unfold corrcoef at h
  dsimp only at h
  split_ifs at h with hden
  rw [FV.fin.injEq] at h
  set num := ((x.zip y).map
    (fun p => (p.1 - npMean x) * (p.2 - npMean y))).sum with hnum
  set den := Real.sqrt ((x.map (fun a => (a - npMean x) ^ 2)).sum) *
    Real.sqrt ((y.map (fun b => (b - npMean y) ^ 2)).sum) with hd
  have hdnn : 0 ≤ den := mul_nonneg (Real.sqrt_nonneg _) (Real.sqrt_nonneg _)
  have hdpos : 0 < den := lt_of_le_of_ne hdnn (Ne.symm hden)
  have hden2 : den ^ 2 = ((x.map (fun a => (a - npMean x) ^ 2)).sum) *
      ((y.map (fun b => (b - npMean y) ^ 2)).sum) := by
    rw [hd, mul_pow, Real.sq_sqrt (sq_sum_list_nonneg x (npMean x)),
      Real.sq_sqrt (sq_sum_list_nonneg y (npMean y))]
  have hsq : num ^ 2 ≤ den ^ 2 := by
    rw [hden2]
    exact corr_num_sq_le x y (npMean x) (npMean y)
  have hr2 : r ^ 2 ≤ 1 := by
    rw [← h, div_pow]
    rw [div_le_one (by positivity)]
    exact hsq
  have habs : |r| ≤ 1 := (sq_le_one_iff_abs_le_one r).mp hr2
  exact abs_le.mp habs

/-- C5: the claim states the correlation lies in [-1, 1] whenever the
input length is greater than 1.  Counterexample: for the pair
`([0, 1], [0, 0])` of length 2, the transformed sequence is constant,
the Pearson denominator is zero, and numpy's 0/0 division yields NaN:
the correlation field is NaN, not a value in [-1, 1]. -/
theorem c5_counterexample :
    (calculate_consciousness_score defaultParams [0, 1] [0, 0]).correlation = FV.nan := by
  show (if 1 < ([0, 1] : List ℝ).length then corrcoef [0, 1] [0, 0] else FV.fin 0) = FV.nan
  rw [if_pos (by norm_num)]
  unfold corrcoef
  rw [if_pos]
  have hm : npMean [(0:ℝ), 0] = 0 := by norm_num [npMean]
  rw [hm]
  norm_num [Real.sqrt_eq_zero]

/-- C5 (amended): the correlation field equals 0 whenever the input
length is at most 1; when the length exceeds 1 it is the Pearson
coefficient, which lies in [-1, 1] whenever it is a finite value (it is
NaN when either sequence has zero squared deviation). -/
theorem c5_correlation (a : Option ℝ) (b e : ℝ) (original transformed : List ℝ) :
    (original.length ≤ 1 →
      (calculate_consciousness_score (init a b e) original transformed).correlation
        = FV.fin 0) ∧
    (1 < original.length → ∀ r : ℝ,
      (calculate_consciousness_score (init a b e) original transformed).correlation
          = FV.fin r →
      -1 ≤ r ∧ r ≤ 1) := by
  constructor
  · intro hle
    show (if 1 < original.length then corrcoef original transformed else FV.fin 0)
      = FV.fin 0
    rw [if_neg (not_lt.mpr hle)]
  · intro hgt r hr
    have hr2 : corrcoef original transformed = FV.fin r := by
      have hshow : (calculate_consciousness_score (init a b e) original
          transformed).correlation
          = (if 1 < original.length then corrcoef original transformed else FV.fin 0) :=
        rfl
      rw [hshow, if_pos hgt] at hr
      exact hr
    exact corrcoef_bounds original transformed r hr2

/-- C5 witness: the amended statement applied to the single-element pair
`([5], [7])`, whose correlation field is 0. -/
theorem c5_witness :
    (calculate_consciousness_score (init none 1 1e-12) [5] [7]).correlation
      = FV.fin 0 :=
  (c5_correlation none 1 1e-12 [5] [7]).1 (by norm_num)

lemma log_term_eps_one : log_term (init none 1 1) (FV.fin 0) = FV.fin (Real.log 2) := by
  unfold log_term init
  simp only [FV.maxReal, FV.addReal, FV.log]
  rw [max_eq_right (by norm_num : (0:ℝ) ≤ 1)]
  rw [show (1:ℝ) + 1 = 2 by norm_num]
  rw [if_neg (by norm_num : ¬ (2:ℝ) < 0), if_neg (by norm_num : ¬ (2:ℝ) = 0)]

/-- C10 witness: the theorem at the instance with epsilon 1 on the input
0, with amplification 2, where no fallback triggers. -/
theorem c10_witness :
    ∃ r1 : ℝ, transformElem (init none 1 1) 1 (FV.fin 0) = FV.fin r1 ∧
      transformElem (init none 1 1) 2 (FV.fin 0)
        = FV.fin (2 * (r1 - (init none 1 1).beta) + (init none 1 1).beta) :=
  c10_amplification (init none 1 1) 2 (FV.fin 0)
    (by rw [rawElem_of_logTerm (init none 1 1) 1 (FV.fin 0) (Real.log 2) log_term_eps_one]; rfl)
    (by rw [rawElem_of_logTerm (init none 1 1) 2 (FV.fin 0) (Real.log 2) log_term_eps_one]; rfl)

lemma runPattern_ok {E R : Type} (g : String → ℕ → List ℝ) (v : List ℝ → R)
    (p : String) : ∀ sizes : List ℕ,
    runPattern (E := E) (fun q s => Except.ok (g q s)) (fun d => Except.ok (v d)) p sizes
      = Except.ok (sizes.map (fun s => (v (g p s), p, s)))
  | [] => rfl
  | s :: rest => by
    simp only [runPattern, Except.bind, runPattern_ok g v p rest, List.map_cons]

/-- C6: the claim states that a generation or validation failure for one
(pattern, size) pair leaves records for all other pairs in the suite
result.  Counterexample: with a generator failing only for the
`prime_modulo` pattern (and a validator that always succeeds), the whole
run aborts with the error and the result contains no record at all —
the loop body of `run_comprehensive_validation` has no exception
handler, so the first failure propagates. -/
theorem c6_counterexample :
    runComprehensive (E := Unit) (R := Unit)
      (fun p _ => if p = "prime_modulo" then Except.error () else Except.ok [])
      (fun _ => Except.ok ()) (some [1]) = Except.error () := by
  rfl

/-- C6 (amended): the orchestrator is not resilient: a failing pair
aborts the whole run with that error.  Only when generation and
validation succeed for every pair does the suite result contain one
tagged record per (pattern, size) pair, for all patterns in their fixed
order and all sizes in the given order. -/
theorem c6_all_ok {E R : Type} (g : String → ℕ → List ℝ) (v : List ℝ → R)
    (sizes : List ℕ) :
    runComprehensive (E := E) (fun q s => Except.ok (g q s))
        (fun d => Except.ok (v d)) (some sizes)
      = Except.ok (patternsList.map
          (fun p => (p, sizes.map (fun s => (v (g p s), p, s))))) := by
  unfold runComprehensive
  simp only [Option.getD, patternsList, runPatterns, Except.bind,
    runPattern_ok g v, List.map_cons, List.map_nil]

end FHT
